import Mathlib

/-
Verification of the streaming job orchestrator of whisper-transcriber-mw.

The repository sources available here contain the Electron shell
(`electron/src/main.js`, `electron/src/preload.js`) and the renderer
scripts (`src/unnamed/part_000`, `src/unnamed/part_001`).  The backend
core (`backend/server.py` with the chunk planner, segment merger, job
state machine, job runner and registry, per the README file map) is only
referenced by the client and the README; its file is not part of the
source tree given here, so those components are modelled from the
specification text and their doc comments say so; the client-side
functions are translated directly from the renderer sources.
-/

set_option maxHeartbeats 1000000

namespace Whisper

/-! ## Chunk Planner (backend, modelled from the spec) -/

/-- Modelled from the spec: the `InvalidParameters` member of the §7 error
taxonomy, used by the submission path; the backend source carrying it is
not under `src/`. -/
inductive PlanFault
  | invalidParameters
deriving DecidableEq, Repr

/-- Modelled from the spec: the window-generation loop of §4.1 for the
missing backend chunk planner.  `fuel` bounds the recursion structurally;
`planWindows` supplies a fuel large enough that the loop always reaches its
stopping condition.  The first window starts at `s`; each subsequent window
starts at `previousStart + (chunkLen - overlap)`; a window's end is
`min (start + chunkLen) total`; planning stops once a window's end reaches
`total`. -/
def planFromFuel (total chunkLen overlap : Nat) : Nat → Nat → List (Nat × Nat)
  | 0, s => [(s, min (s + chunkLen) total)]
  | fuel + 1, s =>
    if total ≤ s + chunkLen ∨ chunkLen ≤ overlap then
      [(s, min (s + chunkLen) total)]
    else
      (s, min (s + chunkLen) total) ::
        planFromFuel total chunkLen overlap fuel (s + (chunkLen - overlap))

/-- Modelled from the spec: `plan`'s ordered window sequence (§4.1),
starting at 0.  With valid parameters each iteration advances the start by
at least one second, so `total` steps of fuel always suffice. -/
def planWindows (total chunkLen overlap : Nat) : List (Nat × Nat) :=
  planFromFuel total chunkLen overlap total 0

/-- Modelled from the spec: §4.1 preconditions `chunkLen > 0`,
`0 ≤ overlap < chunkLen`, `total ≥ 0` (the last two partly automatic over
`Nat`); violation fails with `InvalidParameters`. -/
def plan (total chunkLen overlap : Nat) : Except PlanFault (List (Nat × Nat)) :=
  if 0 < chunkLen ∧ overlap < chunkLen then
    Except.ok (planWindows total chunkLen overlap)
  else
    Except.error PlanFault.invalidParameters

/-! ## Segment Merger (backend, modelled from the spec) -/

/-- Modelled from the spec: a timestamped segment `{startTime, endTime,
text}` of a Chunk Result (§3); `endTime` is named `stop` because `end` is
reserved.  Times are in whole seconds as in every example of the spec. -/
structure Segment where
  start : Nat
  stop : Nat
  text : String
deriving DecidableEq, Repr

/-- Modelled from the spec: the output of one engine invocation for one
chunk window (§3): recognized text plus an optional ordered sequence of
timestamped segments, timestamps relative to the window. -/
structure ChunkResult where
  windowStart : Nat
  windowEnd : Nat
  text : String
  segments : Option (List Segment)
deriving DecidableEq, Repr

/-- Concatenation of a list of text fragments, in order. -/
def concatTexts : List String → String
  | [] => ""
  | t :: ts => t ++ concatTexts ts

/-- Modelled from the spec: time-offset correction of a segment by its
window's start (§3, §4.2). -/
def offsetSegment (ws : Nat) (s : Segment) : Segment :=
  { s with start := ws + s.start, stop := ws + s.stop }

/-- Modelled from the spec: the segments of one chunk retained by the
merger (§4.2).  For the first chunk (`keepAll = true`) everything is
retained; for any later chunk a segment whose relative `startTime` falls
strictly inside the overlap region (`startTime < overlap`, §8) is dropped,
ownership of the overlap belonging to the earlier chunk.  Retained
segments are time-offset corrected. -/
def chunkKept (overlap : Nat) (keepAll : Bool) (r : ChunkResult) : List Segment :=
  ((r.segments.getD []).filter fun s => keepAll || decide (overlap ≤ s.start)).map
    (offsetSegment r.windowStart)

/-- Modelled from the spec: merger treatment of every chunk after the
first (§4.2), concatenated in chunk index order. -/
def mergeRest (overlap : Nat) : List ChunkResult → List Segment
  | [] => []
  | r :: rs => chunkKept overlap false r ++ mergeRest overlap rs

/-- Modelled from the spec: the merger's retained, time-offset-corrected
segment list (§4.2): the first chunk keeps everything, later chunks drop
segments starting strictly inside the overlap region. -/
def mergeSegments (overlap : Nat) : List ChunkResult → List Segment
  | [] => []
  | r :: rs => chunkKept overlap true r ++ mergeRest overlap rs

/-- The retained segments of one indexed chunk, phrased positionally the
way the claim states the policy: position 0 keeps everything, any later
position keeps exactly the segments with `overlap ≤ startTime`. -/
def keptIndexed (overlap : Nat) (p : Nat × ChunkResult) : List Segment :=
  ((p.2.segments.getD []).filter fun s => decide (p.1 = 0) || decide (overlap ≤ s.start)).map
    (offsetSegment p.2.windowStart)

/-- Modelled from the spec: `merge(orderedChunkResults, overlapSeconds)`
(§4.2).  When every engine response carries per-segment timestamps the
output text is the concatenation of all retained segment texts in order;
otherwise the merger falls back to plain string concatenation with a
single-space separator and no time-based deduplication. -/
def merge (results : List ChunkResult) (overlap : Nat) : String × List Segment :=
  if results.all fun r => r.segments.isSome then
    let segs := mergeSegments overlap results
    (concatTexts (segs.map Segment.text), segs)
  else
    (String.intercalate (" ") (results.map ChunkResult.text), [])

/-! ## Job State Machine and Job Runner (backend, modelled from the spec) -/

/-- Modelled from the spec: the job status enumeration of §4.3. -/
inductive Status
  | queued
  | chunking
  | transcribing
  | completed
  | failed
  | cancelled
deriving DecidableEq, Repr

/-- Modelled from the spec: terminal states are `completed`, `failed`,
`cancelled` (§4.3, glossary). -/
def isTerminal : Status → Bool
  | Status.completed => true
  | Status.failed => true
  | Status.cancelled => true
  | _ => false

/-- Modelled from the spec: the transition relation of §4.3:
`queued → chunking → transcribing → completed`, with
`transcribing → failed` and any non-terminal state `→ cancelled`. -/
inductive JobStep : Status → Status → Prop
  | startChunking : JobStep Status.queued Status.chunking
  | startTranscribing : JobStep Status.chunking Status.transcribing
  | finish : JobStep Status.transcribing Status.completed
  | engineFault : JobStep Status.transcribing Status.failed
  | cancel (s : Status) : isTerminal s = false → JobStep s Status.cancelled

/-- Modelled from the spec: the Job record of §3 (identity is held by the
registry map, not repeated inside the record). -/
structure Job where
  status : Status
  progress : Nat
  currentChunkIndex : Nat
  totalChunks : Nat
  accumulatedText : String
  lastError : Option String
deriving DecidableEq, Repr

/-- Modelled from the spec: the initial `queued` job stored at creation
(§4.3, §4.6). -/
def initJob : Job :=
  { status := Status.queued, progress := 0, currentChunkIndex := 0, totalChunks := 0,
    accumulatedText := "", lastError := none }

/-- Modelled from the spec: the job snapshot once the planner has run and
the total chunk count is known (§4.3 `chunking`). -/
def chunkingJob (n : Nat) : Job :=
  { initJob with status := Status.chunking, totalChunks := n }

/-- Modelled from the spec: the terminal success snapshot (§4.3
`completed`): progress forced to 100, accumulated text final. -/
def completedJob (job : Job) : Job :=
  { job with status := Status.completed, progress := 100 }

/-- Modelled from the spec: the snapshot after the cancellation flag is
observed at a chunk boundary (§4.3 `cancelled`): processing stops,
partial accumulated text retained. -/
def cancelledJob (job : Job) : Job :=
  { job with status := Status.cancelled }

/-- Modelled from the spec: the terminal snapshot after chunk `i`'s engine
call raised an unrecoverable error (§4.3 `failed`): `lastError` populated
with the cause. -/
def failedJob (i : Nat) (e : String) (job : Job) : Job :=
  { job with
    status := Status.failed
    lastError := some e
    currentChunkIndex := i }

/-- Modelled from the spec: the `transcribing` snapshot after chunk `i` of
`n` completes (§4.3, §4.4): text appended and progress advanced to
`floor(currentChunkIndex / totalChunks * 100)`. -/
def steppedJob (n i : Nat) (t : String) (job : Job) : Job :=
  { job with
    status := Status.transcribing
    currentChunkIndex := i
    accumulatedText := job.accumulatedText ++ t
    progress := i * 100 / n }

/-- Modelled from the spec: the per-chunk loop of the Job Runner (§4.4)
over the planned chunk indices (1-based), threading the job snapshot.
At each chunk boundary the cancellation flag is checked first (`cancelSeen
i` is what the flag reads at the checkpoint before chunk `i`); then the
engine is invoked; on success the accumulated text and progress
(`floor(currentChunkIndex / totalChunks * 100)`) advance and a
`transcribing` snapshot is emitted; on engine failure the job becomes
`failed` with `lastError` populated and the loop stops; after the last
chunk succeeds the job becomes `completed` with progress forced to 100.
Returns the final job, the emitted snapshots in order, and the chunk
indices actually given to the engine. -/
def runLoop (engine : Nat → Except String String) (cancelSeen : Nat → Bool) (n : Nat) :
    List Nat → Job → Job × List Job × List Nat
  | [], job =>
    (completedJob job, [completedJob job], [])
  | i :: rest, job =>
    if cancelSeen i then
      (cancelledJob job, [cancelledJob job], [])
    else
      match engine i with
      | Except.error e =>
        (failedJob i e job, [failedJob i e job], [i])
      | Except.ok t =>
        let r := runLoop engine cancelSeen n rest (steppedJob n i t job)
        (r.1, steppedJob n i t job :: r.2.1, i :: r.2.2)

/-- Modelled from the spec: one full Job Runner execution over `n` planned
chunks (§4.4): the `queued` snapshot at creation, the `chunking` snapshot
once the chunk count is known, then the per-chunk loop.  Returns the final
job, the whole ordered snapshot trace, and the chunk indices given to the
engine. -/
def runJob (engine : Nat → Except String String) (cancelSeen : Nat → Bool) (n : Nat) :
    Job × List Job × List Nat :=
  ((runLoop engine cancelSeen n (List.range' 1 n) (chunkingJob n)).1,
   initJob :: chunkingJob n :: (runLoop engine cancelSeen n (List.range' 1 n) (chunkingJob n)).2.1,
   (runLoop engine cancelSeen n (List.range' 1 n) (chunkingJob n)).2.2)

/-! ## Job Registry (backend, modelled from the spec) -/

/-- Modelled from the spec: the process-wide in-memory job store of §4.6:
an identifier counter and a map from identifier to job. -/
structure Registry where
  nextId : Nat
  jobs : List (Nat × Job)
deriving DecidableEq, Repr

/-- Modelled from the spec: `submitJob` (§6) validates the §4.1
preconditions synchronously; on violation it fails with
`InvalidParameters` and creates no job; otherwise it stores an initial
`queued` job and returns its fresh identifier. -/
def submitJob (reg : Registry) (chunkLen overlap : Nat) : Registry × Except PlanFault Nat :=
  if 0 < chunkLen ∧ overlap < chunkLen then
    ({ nextId := reg.nextId + 1, jobs := (reg.nextId, initJob) :: reg.jobs },
     Except.ok reg.nextId)
  else
    (reg, Except.error PlanFault.invalidParameters)

/-! ## Renderer client (translated from `src/unnamed/part_001`, with
`src/unnamed/part_000` differing only in details noted below) -/

/-- WebSocket ready states as compared by the renderer
(`websocket.readyState === WebSocket.OPEN`). -/
inductive WSState
  | connecting
  | opened
  | closing
  | closed
deriving DecidableEq, Repr

/-- The renderer's mutable globals and the DOM fields its functions write
(`part_001` lines 1-17 and the elements accessed through `$(...)`).
Numeric percents are rationals standing for the JS numbers; the interval
handle is the polling period in milliseconds when a poll is active. -/
structure ClientState where
  useWebSocket : Bool
  wsConnected : Bool
  wsReadyState : WSState
  pollIntervalMs : Option Nat
  currentStreamingJob : Option String
  currentFormat : String
  lastResult : Option String
  outText : String
  progressFillPercent : ℚ
  progressTextLabel : String
  streamingStatusText : String
  normalFillPercent : ℚ
  normalTextLabel : String
  normalStatusText : String
  normalFillClass : String
  statusText : String
  statusClass : String
  statusVisible : Bool
  copyVisible : Bool
  saveVisible : Bool
  streamingSendDisabled : Bool
  streamingSendLabel : String
  streamingCancelDisabled : Bool
  streamingProgressVisible : Bool
deriving DecidableEq, Repr

/-- The payload of a `progress_update` WebSocket event as read by
`updateStreamingProgress` (`part_001` lines 474-499). -/
structure ProgressData where
  progress : Option ℚ
  currentChunk : Option Nat
  totalChunks : Option Nat
  status : String
  error : Option String
  fullText : Option String
deriving DecidableEq, Repr

/-- A WebSocket message as read by `handleWebSocketMessage` (`part_001`
lines 71-83): `type`, `job_id` and `data` for streaming progress events,
and the flat `progress`/`message`/`status` fields of the
`transcribe_progress` variant. -/
structure WSMessage where
  type : String
  jobId : Option String
  data : ProgressData
  progress : Option ℚ
  message : Option String
  status : Option String
deriving DecidableEq, Repr

/-- `updateProgress` (`part_001` lines 637-641, `part_000` lines 687-691):
sets the fill width to `min(percent, 100)` percent, the percent label to
`Math.round(percent)` and the streaming status line to `text`. -/
def updateProgress (st : ClientState) (percent : ℚ) (text : String) : ClientState :=
  { st with progressFillPercent := min percent 100,
            progressTextLabel := toString (round percent) ++ "%",
            streamingStatusText := text }

/-- `updateNormalProgress` (`part_001` lines 644-662): same clamping for
the non-streaming progress bar, plus a CSS class reflecting the status. -/
def updateNormalProgress (st : ClientState) (percent : ℚ) (text status : String) :
    ClientState :=
  { st with normalFillPercent := min percent 100,
            normalTextLabel := toString (round percent) ++ "%",
            normalStatusText := text,
            normalFillClass :=
              if status == "error" then "progress-fill error"
              else if status == "completed" then "progress-fill success"
              else "progress-fill" }

/-- `showStatus` (`part_001` lines 392-400): shows the banner with the
message and type; the five-second auto-hide timer is a timing effect not
modelled. -/
def showStatus (st : ClientState) (message kind : String) : ClientState :=
  { st with statusText := message, statusClass := kind, statusVisible := true }

/-- `resetStreamingUI` (`part_001` lines 664-676): clears any polling
interval, forgets the current job, restores the buttons, hides the
progress area and zeroes the progress display. -/
def resetStreamingUI (st : ClientState) : ClientState :=
  updateProgress
    { st with pollIntervalMs := none,
              currentStreamingJob := none,
              streamingSendDisabled := false,
              streamingSendLabel := "ストリーミング処理開始",
              streamingCancelDisabled := true,
              streamingProgressVisible := false }
    0 ""

/-- `handleStreamingCompletion` (`part_001` lines 501-516): publishes the
final text when present, shows the completion banner, and resets the
streaming UI.  For non-text formats the client additionally downloads the
formatted file (`downloadStreamingResult`, a network effect not modelled)
whose `finally` clause performs the same reset. -/
def handleStreamingCompletion (st : ClientState) (data : ProgressData) : ClientState :=
  let st1 :=
    match data.fullText with
    | some t => { st with outText := t, lastResult := some t,
                          copyVisible := true, saveVisible := true }
    | none => st
  let st2 := showStatus st1
    ("ストリーミング処理完了 (" ++ toString ((data.totalChunks).getD 0) ++ " チャンク処理)")
    ("success")
  resetStreamingUI st2

/-- `updateStreamingProgress` (`part_001` lines 474-499): derives a status
line from the event, running the completion or failure handlers first,
then writes the progress display and, when the event carries partial text,
the output area. -/
def updateStreamingProgress (st : ClientState) (data : ProgressData) : ClientState :=
  let progress := (data.progress).getD 0
  let currentChunk := (data.currentChunk).getD 0
  let totalChunks := (data.totalChunks).getD 0
  let branch : ClientState × String :=
    if data.status == "chunking" then (st, "音声を分割中...")
    else if data.status == "transcribing" then
      (st, "チャンク " ++ toString currentChunk ++ "/" ++ toString totalChunks ++ " を処理中")
    else if data.status == "completed" then
      (handleStreamingCompletion st data, "処理完了！")
    else if data.status == "failed" then
      (resetStreamingUI
        (showStatus st
          ("ストリーミング処理失敗: " ++ (data.error).getD ("Unknown error"))
          ("error")),
       "処理失敗: " ++ (data.error).getD ("Unknown error"))
    else (st, "")
  let st2 := updateProgress branch.1 progress branch.2
  match data.fullText with
  | some t => { st2 with outText := t, lastResult := some t }
  | none => st2

/-- `handleWebSocketMessage` (`part_001` lines 71-83): a `progress_update`
event updates the streaming progress only when its `job_id` equals
`currentStreamingJob`; a `transcribe_progress` event updates the normal
progress bar; anything else (such as `part_000`'s `pong`, which only
logs) changes nothing. -/
def handleWebSocketMessage (st : ClientState) (m : WSMessage) : ClientState :=
  if m.type == "progress_update" then
    if m.jobId == st.currentStreamingJob then
      updateStreamingProgress st m.data
    else st
  else if m.type == "transcribe_progress" then
    updateNormalProgress st ((m.progress).getD 0) ((m.message).getD "") ((m.status).getD "")
  else st

/-- `startStreamingPoll` (`part_001` lines 543-597, `part_000` lines
578-640): when the WebSocket is enabled, present and open, no polling
interval is started; otherwise any previous interval is replaced by a
1000 ms poll of the job-status endpoint (the poll body's fetches are
network effects not modelled). -/
def startStreamingPoll (st : ClientState) : ClientState :=
  if st.useWebSocket && st.wsConnected && (st.wsReadyState == WSState.opened) then st
  else { st with pollIntervalMs := some 1000 }

/-- `websocket.onerror` (`part_001` lines 63-67): disables the WebSocket
channel so the client falls back to polling, and shows the error banner. -/
def onWebSocketError (st : ClientState) : ClientState :=
  showStatus { st with useWebSocket := false }
    ("WebSocket接続失敗、ポーリングモードに切り替えました") ("error")

/-! ## Concrete instances used by witnesses and counterexamples -/

/-- Text produced by the engine for chunk `i` in scenario D. -/
def chunkTextD (i : Nat) : String := "chunk" ++ toString i ++ " "

/-- Scenario D engine: chunk 3 raises an unrecoverable error, every other
chunk succeeds. -/
def engineScenD (i : Nat) : Except String String :=
  if i = 3 then Except.error "engine failure" else Except.ok (chunkTextD i)

/-- A cancellation flag that is never set. -/
def noCancel : Nat → Bool := fun _ => false

/-- Text produced by the always-succeeding engine for chunk `i`. -/
def okText (i : Nat) : String := "t" ++ toString i

/-- An engine that succeeds on every chunk. -/
def engineOk (i : Nat) : Except String String := Except.ok (okText i)

/-- The cancellation flag as observed when cancellation is requested while
chunk `i` is processing: the checkpoint before chunk `j` sees it exactly
when `j` comes after `i`. -/
def cancelDuringChunk (i : Nat) : Nat → Bool := fun j => decide (i < j)

/-- Scenario B input: chunk 1 yields "hello " over `[0,30]`; chunk 2
(window `[27,57]`, overlap 3) yields one segment at relative start 1
(inside the overlap, to be dropped) and one at relative start 5 (kept). -/
def scenB : List ChunkResult :=
  [{ windowStart := 0, windowEnd := 30, text := "hello ",
     segments := some [{ start := 0, stop := 30, text := "hello " }] },
   { windowStart := 27, windowEnd := 57, text := "dup world",
     segments := some [{ start := 1, stop := 3, text := "dup " },
                       { start := 5, stop := 8, text := "world" }] }]

/-- An empty registry. -/
def exRegistry : Registry := { nextId := 0, jobs := [] }

/-- A renderer state with an open WebSocket and a streaming job in
flight. -/
def exClient : ClientState :=
  { useWebSocket := true, wsConnected := true, wsReadyState := WSState.opened,
    pollIntervalMs := none, currentStreamingJob := some "job-1",
    currentFormat := "text", lastResult := none, outText := "",
    progressFillPercent := 0, progressTextLabel := "0%", streamingStatusText := "",
    normalFillPercent := 0, normalTextLabel := "0%", normalStatusText := "",
    normalFillClass := "progress-fill",
    statusText := "", statusClass := "", statusVisible := false,
    copyVisible := false, saveVisible := false,
    streamingSendDisabled := true, streamingSendLabel := "処理中...",
    streamingCancelDisabled := false, streamingProgressVisible := true }

/-- A progress event for a different job than the one `exClient`
streams. -/
def exMsgOther : WSMessage :=
  { type := "progress_update", jobId := some "job-2",
    data := { progress := some 50, currentChunk := some 2, totalChunks := some 4,
              status := "transcribing", error := none, fullText := some "partial" },
    progress := none, message := none, status := none }

/-! ## Chunk Planner lemmas -/

theorem planFromFuel_ne_nil (total chunkLen overlap fuel s : Nat) :
    planFromFuel total chunkLen overlap fuel s ≠ [] := by
  cases fuel with
  | zero => simp [planFromFuel]
  | succ f =>
    rw [planFromFuel]
    split <;> simp

theorem planFromFuel_head (total chunkLen overlap fuel s : Nat) :
    (planFromFuel total chunkLen overlap fuel s).head? =
      some (s, min (s + chunkLen) total) := by
  cases fuel with
  | zero => rfl
  | succ f =>
    rw [planFromFuel]
    split <;> rfl

theorem planFromFuel_ends (total chunkLen overlap : Nat) :
    ∀ fuel s, ∀ p ∈ planFromFuel total chunkLen overlap fuel s,
      p.2 = min (p.1 + chunkLen) total := by
  intro fuel
  induction fuel with
  | zero =>
    intro s p hp
    simp only [planFromFuel, List.mem_singleton] at hp
    subst hp; rfl
  | succ f ih =>
    intro s p hp
    rw [planFromFuel] at hp
    split at hp
    · simp only [List.mem_singleton] at hp
      subst hp; rfl
    · rcases List.mem_cons.mp hp with h | h
      · subst h; rfl
      · exact ih _ p h

theorem planFromFuel_chain (total chunkLen overlap : Nat) :
    ∀ fuel s, List.Chain' (fun p q => q.1 = p.1 + (chunkLen - overlap))
      (planFromFuel total chunkLen overlap fuel s) := by
  intro fuel
  induction fuel with
  | zero => intro s; exact List.chain'_singleton _
  | succ f ih =>
    intro s
    rw [planFromFuel]
    split
    · exact List.chain'_singleton _
    · refine List.chain'_cons'.mpr ⟨?_, ih _⟩
      intro q hq
      rw [planFromFuel_head] at hq
      simp only [Option.mem_def, Option.some.injEq] at hq
      subst hq
      rfl

theorem planFromFuel_stop (total chunkLen overlap : Nat) :
    ∀ fuel s, List.Chain' (fun p _ => p.2 < total)
      (planFromFuel total chunkLen overlap fuel s) := by
  intro fuel
  induction fuel with
  | zero => intro s; exact List.chain'_singleton _
  | succ f ih =>
    intro s
    rw [planFromFuel]
    split
    · exact List.chain'_singleton _
    · rename_i hcond
      push_neg at hcond
      refine List.chain'_cons'.mpr ⟨?_, ih _⟩
      intro q _
      have hlt : s + chunkLen < total := hcond.1
      simpa [Nat.min_eq_left (Nat.le_of_lt hlt)] using hlt

theorem planFromFuel_last (total chunkLen overlap : Nat) :
    ∀ fuel s, total ≤ s + chunkLen + fuel * (chunkLen - overlap) →
      ∀ p, (planFromFuel total chunkLen overlap fuel s).getLast? = some p →
        p.2 = total := by
  intro fuel
  induction fuel with
  | zero =>
    intro s hs p hp
    simp only [planFromFuel, List.getLast?_singleton, Option.some.injEq] at hp
    subst hp
    simpa using Nat.min_eq_right (by omega : total ≤ s + chunkLen)
  | succ f ih =>
    intro s hs p hp
    rw [planFromFuel] at hp
    split at hp
    · rename_i hcond
      simp only [List.getLast?_singleton, Option.some.injEq] at hp
      subst hp
      rcases hcond with h | h
      · simpa using Nat.min_eq_right h
      · have hz : chunkLen - overlap = 0 := Nat.sub_eq_zero_of_le h
        rw [hz] at hs
        simpa using Nat.min_eq_right (by omega : total ≤ s + chunkLen)
    · rename_i hcond
      push_neg at hcond
      obtain ⟨b, l', hb⟩ :=
        List.exists_cons_of_ne_nil
          (planFromFuel_ne_nil total chunkLen overlap f (s + (chunkLen - overlap)))
      rw [hb, List.getLast?_cons_cons, ← hb] at hp
      have hsm : (f + 1) * (chunkLen - overlap) =
          f * (chunkLen - overlap) + (chunkLen - overlap) := Nat.succ_mul _ _
      exact ih (s + (chunkLen - overlap)) (by omega) p hp

/-! ## Segment Merger lemmas -/

theorem chunkKept_rest (overlap k : Nat) (r : ChunkResult) (hk : k ≠ 0) :
    keptIndexed overlap (k, r) = chunkKept overlap false r := by
  simp [keptIndexed, chunkKept, decide_eq_false hk]

theorem mergeRest_enumFrom (overlap : Nat) :
    ∀ (rs : List ChunkResult) (k : Nat), k ≠ 0 →
      ((List.enumFrom k rs).map (keptIndexed overlap)).flatten = mergeRest overlap rs := by
  intro rs
  induction rs with
  | nil => intro k _; rfl
  | cons r rs ih =>
    intro k hk
    simp only [List.enumFrom_cons, List.map_cons, List.flatten_cons, mergeRest]
    rw [chunkKept_rest overlap k r hk, ih (k + 1) (Nat.succ_ne_zero k)]

/-! ## Claim theorems -/

/-- Claim C1: for every valid input (`chunkLengthSeconds > 0`,
`0 ≤ overlapSeconds < chunkLengthSeconds`, `totalDurationSeconds ≥ 0`),
the Chunk Planner's plan produces windows whose first starts at 0, each
subsequent one starts at `previousStart + (chunkLengthSeconds -
overlapSeconds)`, each window's end is `min (start + chunkLengthSeconds)
totalDurationSeconds`, and planning stops once a window's end reaches the
total (every non-final end is below the total, and the final end equals
it); in particular `plan 100 30 3` returns exactly the four windows
`[0,30], [27,57], [54,84], [81,100]` in that order. -/
theorem c1_chunk_plan (total chunkLen overlap : Nat)
    (h1 : 0 < chunkLen) (h2 : overlap < chunkLen) :
    plan total chunkLen overlap = Except.ok (planWindows total chunkLen overlap) ∧
    (∃ w, (planWindows total chunkLen overlap).head? = some w ∧ w.1 = 0) ∧
    List.Chain' (fun p q => q.1 = p.1 + (chunkLen - overlap))
      (planWindows total chunkLen overlap) ∧
    (∀ p ∈ planWindows total chunkLen overlap, p.2 = min (p.1 + chunkLen) total) ∧
    (∀ p, (planWindows total chunkLen overlap).getLast? = some p → p.2 = total) ∧
    List.Chain' (fun p _ => p.2 < total) (planWindows total chunkLen overlap) ∧
    plan 100 30 3 = Except.ok [(0, 30), (27, 57), (54, 84), (81, 100)] := by
  refine ⟨?_, ?_, planFromFuel_chain total chunkLen overlap total 0,
    planFromFuel_ends total chunkLen overlap total 0, ?_,
    planFromFuel_stop total chunkLen overlap total 0, ?_⟩
  · simp [plan, h1, h2]
  · exact ⟨(0, min (0 + chunkLen) total),
      planFromFuel_head total chunkLen overlap total 0, rfl⟩
  · intro p hp
    have hstep : 1 ≤ chunkLen - overlap := by omega
    have hmul : total * 1 ≤ total * (chunkLen - overlap) :=
      Nat.mul_le_mul_left total hstep
    exact planFromFuel_last total chunkLen overlap total 0 (by omega) p hp
  · rfl

/-- Claim C1 witness: the theorem applied at the spec's scenario A. -/
theorem c1_chunk_plan_witness :
    0 < 30 ∧ 3 < 30 ∧
    plan 100 30 3 = Except.ok [(0, 30), (27, 57), (54, 84), (81, 100)] :=
  ⟨by decide, by decide,
    (c1_chunk_plan 100 30 3 (by decide) (by decide)).2.2.2.2.2.2⟩

/-- Claim C2: for every ordered chunk-result sequence and every overlap,
the Segment Merger keeps all of the first chunk's segments and drops from
every chunk after the first exactly those segments whose relative
`startTime` falls strictly inside the overlap region (`startTime <
overlap`), keeping the earlier chunk's content; in particular, with chunk
1 yielding "hello " over `[0,30]` and chunk 2 (window `[27,57]`, overlap
3) yielding one segment at relative start 1 s (dropped) and one at
relative start 5 s (kept), the merged text is "hello " followed by only
the kept segment's text. -/
theorem c2_segment_merger :
    (∀ (overlap : Nat) (results : List ChunkResult),
      mergeSegments overlap results =
        ((results.enum).map (keptIndexed overlap)).flatten) ∧
    merge scenB 3 =
      ("hello world",
       [{ start := 0, stop := 30, text := "hello " },
        { start := 32, stop := 35, text := "world" }]) := by
  constructor
  · intro overlap results
    cases results with
    | nil => rfl
    | cons r rs =>
      rw [List.enum_cons]
      simp only [List.map_cons, List.flatten_cons, mergeSegments]
      rw [mergeRest_enumFrom overlap rs 1 one_ne_zero]
      congr 1
  · rfl

/-- Claim C7: every submission whose parameters violate the planner
preconditions — in particular any submission with `overlapSeconds ≥
chunkLengthSeconds` — fails synchronously with `InvalidParameters`, and
no job is created: the registry is returned unchanged and no job
identifier is produced. -/
theorem c7_invalid_submission :
    (∀ (reg : Registry) (chunkLen overlap : Nat),
      ¬(0 < chunkLen ∧ overlap < chunkLen) →
      (submitJob reg chunkLen overlap).2 = Except.error PlanFault.invalidParameters ∧
      (submitJob reg chunkLen overlap).1 = reg) ∧
    (∀ (reg : Registry) (chunkLen overlap : Nat), chunkLen ≤ overlap →
      (submitJob reg chunkLen overlap).2 = Except.error PlanFault.invalidParameters ∧
      (submitJob reg chunkLen overlap).1 = reg) := by
  have h : ∀ (reg : Registry) (chunkLen overlap : Nat),
      ¬(0 < chunkLen ∧ overlap < chunkLen) →
      (submitJob reg chunkLen overlap).2 = Except.error PlanFault.invalidParameters ∧
      (submitJob reg chunkLen overlap).1 = reg := by
    intro reg chunkLen overlap hbad
    unfold submitJob
    rw [if_neg hbad]
    exact ⟨rfl, rfl⟩
  exact ⟨h, fun reg chunkLen overlap hle => h reg chunkLen overlap (by omega)⟩

/-- Claim C7 witness: the theorem applied at the spec's scenario C
(`overlapSeconds = chunkLengthSeconds = 30`) on an empty registry. -/
theorem c7_invalid_submission_witness :
    30 ≤ 30 ∧
    (submitJob exRegistry 30 30).2 = Except.error PlanFault.invalidParameters ∧
    (submitJob exRegistry 30 30).1 = exRegistry :=
  ⟨by decide, c7_invalid_submission.2 exRegistry 30 30 (by decide)⟩

/-- Claim C8: progress is consumed through exactly one channel at a time:
`startStreamingPoll` starts no polling interval while the WebSocket is
enabled, present and open (the push channel is used and the whole client
state is untouched), and after a WebSocket error the client has
`useWebSocket = false` and `startStreamingPoll` installs the 1000 ms poll
of the job-status endpoint instead. -/
theorem c8_channel_selection (st : ClientState)
    (h1 : st.useWebSocket = true) (h2 : st.wsConnected = true)
    (h3 : st.wsReadyState = WSState.opened) :
    startStreamingPoll st = st ∧
    (onWebSocketError st).useWebSocket = false ∧
    (startStreamingPoll (onWebSocketError st)).pollIntervalMs = some 1000 := by
  refine ⟨?_, rfl, ?_⟩
  · simp [startStreamingPoll, h1, h2, h3]
  · simp [startStreamingPoll, onWebSocketError, showStatus]

/-- Claim C8 witness: the theorem applied to a client whose WebSocket is
open. -/
theorem c8_channel_selection_witness :
    startStreamingPoll exClient = exClient ∧
    (onWebSocketError exClient).useWebSocket = false ∧
    (startStreamingPoll (onWebSocketError exClient)).pollIntervalMs = some 1000 :=
  c8_channel_selection exClient rfl rfl rfl

/-- Claim C9: a `progress_update` WebSocket message whose `job_id` differs
from the client's `currentStreamingJob` leaves the whole client state —
in particular the progress bar, status text and output text — unchanged;
only a matching `job_id` routes the event to the streaming progress
display. -/
theorem c9_progress_frame :
    (∀ (st : ClientState) (m : WSMessage), m.type = "progress_update" →
      m.jobId ≠ st.currentStreamingJob → handleWebSocketMessage st m = st) ∧
    (∀ (st : ClientState) (m : WSMessage), m.type = "progress_update" →
      m.jobId = st.currentStreamingJob →
      handleWebSocketMessage st m = updateStreamingProgress st m.data) := by
  constructor
  · intro st m ht hid
    simp [handleWebSocketMessage, ht, hid]
  · intro st m ht hid
    simp [handleWebSocketMessage, ht, hid]

/-- Claim C9 witness: the theorem applied to a client streaming `job-1`
receiving a `progress_update` for `job-2`. -/
theorem c9_progress_frame_witness :
    handleWebSocketMessage exClient exMsgOther = exClient :=
  c9_progress_frame.1 exClient exMsgOther rfl (by decide)

/-- Claim C10: for every numeric percent argument, including values above
100, `updateProgress` sets the progress-bar fill width to
`min percent 100` percent, so the rendered fill never exceeds 100%; at the
concrete over-reporting input 150 the fill is exactly 100. -/
theorem c10_progress_clamp :
    (∀ (st : ClientState) (percent : ℚ) (text : String),
      (updateProgress st percent text).progressFillPercent = min percent 100 ∧
      (updateProgress st percent text).progressFillPercent ≤ 100) ∧
    (updateProgress exClient 150 "over").progressFillPercent = 100 := by
  constructor
  · intro st percent text
    exact ⟨rfl, min_le_right percent 100⟩
  · show min (150 : ℚ) 100 = 100
    norm_num

/-! ## Job Runner lemmas -/

theorem runLoop_nil (engine : Nat → Except String String) (cancel : Nat → Bool)
    (n : Nat) (job : Job) :
    runLoop engine cancel n [] job = (completedJob job, [completedJob job], []) := rfl

theorem runLoop_cons_cancel (engine : Nat → Except String String) (cancel : Nat → Bool)
    (n i : Nat) (rest : List Nat) (job : Job) (h : cancel i = true) :
    runLoop engine cancel n (i :: rest) job =
      (cancelledJob job, [cancelledJob job], []) := by
  simp [runLoop, h]

theorem runLoop_cons_error (engine : Nat → Except String String) (cancel : Nat → Bool)
    (n i : Nat) (rest : List Nat) (job : Job) (e : String)
    (hc : cancel i = false) (he : engine i = Except.error e) :
    runLoop engine cancel n (i :: rest) job =
      (failedJob i e job, [failedJob i e job], [i]) := by
  simp [runLoop, hc, he]

theorem runLoop_cons_ok (engine : Nat → Except String String) (cancel : Nat → Bool)
    (n i : Nat) (rest : List Nat) (job : Job) (t : String)
    (hc : cancel i = false) (he : engine i = Except.ok t) :
    runLoop engine cancel n (i :: rest) job =
      ((runLoop engine cancel n rest (steppedJob n i t job)).1,
       steppedJob n i t job :: (runLoop engine cancel n rest (steppedJob n i t job)).2.1,
       i :: (runLoop engine cancel n rest (steppedJob n i t job)).2.2) := by
  simp [runLoop, hc, he]

theorem progress_le_hundred {i n : Nat} (h : i ≤ n) : i * 100 / n ≤ 100 := by
  cases n with
  | zero => simp
  | succ m =>
    calc i * 100 / (m + 1) ≤ (m + 1) * 100 / (m + 1) :=
          Nat.div_le_div_right (Nat.mul_le_mul_right 100 h)
    _ = 100 := Nat.mul_div_cancel_left 100 (Nat.succ_pos m)

theorem runLoop_props (engine : Nat → Except String String) (cancel : Nat → Bool) (n : Nat) :
    ∀ (L : List Nat) (job : Job), job.totalChunks = n → job.progress ≤ 100 →
      L.Pairwise (· ≤ ·) → (∀ j ∈ L, j ≤ n) → (∀ j ∈ L, job.progress ≤ j * 100 / n) →
      List.Chain' (fun a b => a.progress ≤ b.progress)
        (runLoop engine cancel n L job).2.1 ∧
      (∀ e ∈ (runLoop engine cancel n L job).2.1, job.progress ≤ e.progress) ∧
      (∀ e ∈ (runLoop engine cancel n L job).2.1, e.totalChunks = n) ∧
      (∀ e ∈ (runLoop engine cancel n L job).2.1,
        (e.status = Status.completed → e.progress = 100) ∧
        (e.status = Status.transcribing →
          e.progress = e.currentChunkIndex * 100 / e.totalChunks)) ∧
      List.Chain' (fun a _ => isTerminal a.status = false)
        (runLoop engine cancel n L job).2.1 := by
  intro L
  induction L with
  | nil =>
    intro job htc hpr _ _ _
    rw [runLoop_nil]
    refine ⟨List.chain'_singleton _, ?_, ?_, ?_, List.chain'_singleton _⟩
    · intro e he
      rw [List.mem_singleton] at he
      subst he
      simpa [completedJob] using hpr
    · intro e he
      rw [List.mem_singleton] at he
      subst he
      simpa [completedJob] using htc
    · intro e he
      rw [List.mem_singleton] at he
      subst he
      constructor
      · intro _; rfl
      · intro hst
        simp [completedJob] at hst
  | cons i rest ih =>
    intro job htc hpr hpw hbound hstart
    have hin : i ∈ i :: rest := List.mem_cons_self i rest
    have hile : i ≤ n := hbound i hin
    by_cases hc : cancel i = true
    · rw [runLoop_cons_cancel engine cancel n i rest job hc]
      refine ⟨List.chain'_singleton _, ?_, ?_, ?_, List.chain'_singleton _⟩
      · intro e he
        rw [List.mem_singleton] at he
        subst he
        simp [cancelledJob]
      · intro e he
        rw [List.mem_singleton] at he
        subst he
        simpa [cancelledJob] using htc
      · intro e he
        rw [List.mem_singleton] at he
        subst he
        constructor <;> intro hst <;> simp [cancelledJob] at hst
    · have hcf : cancel i = false := by simpa using hc
      cases he : engine i with
      | error e =>
        rw [runLoop_cons_error engine cancel n i rest job e hcf he]
        refine ⟨List.chain'_singleton _, ?_, ?_, ?_, List.chain'_singleton _⟩
        · intro e' he'
          rw [List.mem_singleton] at he'
          subst he'
          simp [failedJob]
        · intro e' he'
          rw [List.mem_singleton] at he'
          subst he'
          simpa [failedJob] using htc
        · intro e' he'
          rw [List.mem_singleton] at he'
          subst he'
          constructor <;> intro hst <;> simp [failedJob] at hst
      | ok t =>
        rw [runLoop_cons_ok engine cancel n i rest job t hcf he]
        obtain ⟨hhead, htail⟩ := List.pairwise_cons.mp hpw
        obtain ⟨ih1, ih2, ih3, ih4, ih5⟩ := ih (steppedJob n i t job)
          (by simp [steppedJob, htc])
          (by simpa [steppedJob] using progress_le_hundred hile)
          htail
          (fun j hj => hbound j (List.mem_cons_of_mem _ hj))
          (fun j hj => by
            simpa [steppedJob] using
              Nat.div_le_div_right (Nat.mul_le_mul_right 100 (hhead j hj)))
        refine ⟨?_, ?_, ?_, ?_, ?_⟩
        · refine List.chain'_cons'.mpr ⟨?_, ih1⟩
          intro b hb
          exact ih2 b (List.mem_of_mem_head? hb)
        · intro e' he'
          rcases List.mem_cons.mp he' with h | h
          · subst h
            simpa [steppedJob] using hstart i hin
          · refine le_trans ?_ (ih2 e' h)
            simpa [steppedJob] using hstart i hin
        · intro e' he'
          rcases List.mem_cons.mp he' with h | h
          · subst h
            simpa [steppedJob] using htc
          · exact ih3 e' h
        · intro e' he'
          rcases List.mem_cons.mp he' with h | h
          · subst h
            constructor
            · intro hst
              simp [steppedJob] at hst
            · intro _
              simp [steppedJob, htc]
          · exact ih4 e' h
        · refine List.chain'_cons'.mpr ⟨?_, ih5⟩
          intro b _
          simp [steppedJob, isTerminal]

theorem runJob_props (engine : Nat → Except String String) (cancel : Nat → Bool) (n : Nat) :
    List.Chain' (fun a b => a.progress ≤ b.progress) (runJob engine cancel n).2.1 ∧
    (∀ e ∈ (runJob engine cancel n).2.1,
      (e.status = Status.completed → e.progress = 100) ∧
      (e.status = Status.transcribing →
        e.progress = e.currentChunkIndex * 100 / e.totalChunks)) ∧
    List.Chain' (fun a _ => isTerminal a.status = false) (runJob engine cancel n).2.1 := by
  have hpw : (List.range' 1 n).Pairwise (· ≤ ·) :=
    (List.pairwise_lt_range' 1 n).imp Nat.le_of_lt
  have hbound : ∀ j ∈ List.range' 1 n, j ≤ n := by
    intro j hj
    have := List.mem_range'_1.mp hj
    omega
  obtain ⟨p1, p2, _, p4, p5⟩ :=
    runLoop_props engine cancel n (List.range' 1 n) (chunkingJob n) rfl
      (by simp [chunkingJob, initJob]) hpw hbound
      (fun j _ => by simp [chunkingJob, initJob])
  have htrace : (runJob engine cancel n).2.1 =
      initJob :: chunkingJob n ::
        (runLoop engine cancel n (List.range' 1 n) (chunkingJob n)).2.1 := rfl
  rw [htrace]
  refine ⟨?_, ?_, ?_⟩
  · refine List.chain'_cons'.mpr ⟨?_, List.chain'_cons'.mpr ⟨?_, p1⟩⟩
    · intro b _
      exact Nat.zero_le _
    · intro b hb
      exact p2 b (List.mem_of_mem_head? hb)
  · intro e he
    rcases List.mem_cons.mp he with h | h
    · subst h
      constructor <;> intro hst <;> simp [initJob] at hst
    · rcases List.mem_cons.mp h with h' | h'
      · subst h'
        constructor <;> intro hst <;> simp [chunkingJob, initJob] at hst
      · exact p4 e h'
  · refine List.chain'_cons'.mpr ⟨?_, List.chain'_cons'.mpr ⟨?_, p5⟩⟩
    · intro b _
      rfl
    · intro b _
      rfl

/-- Claim C3: once a job enters a terminal state (`completed`, `failed`
or `cancelled`) no further transition occurs: the state machine has no
transition out of a terminal state, and in every Job Runner execution a
terminal snapshot is only ever the last one of the trace (every snapshot
followed by another is non-terminal). -/
theorem c3_terminal_absorbing :
    (∀ s t : Status, isTerminal s = true → ¬ JobStep s t) ∧
    (∀ (engine : Nat → Except String String) (cancel : Nat → Bool) (n : Nat),
      List.Chain' (fun a _ => isTerminal a.status = false)
        (runJob engine cancel n).2.1) := by
  constructor
  · intro s t hs hstep
    cases hstep with
    | startChunking => simp [isTerminal] at hs
    | startTranscribing => simp [isTerminal] at hs
    | finish => simp [isTerminal] at hs
    | engineFault => simp [isTerminal] at hs
    | cancel _ h => rw [h] at hs; exact Bool.false_ne_true hs
  · intro engine cancel n
    exact (runJob_props engine cancel n).2.2

/-- Claim C3 witness: the theorem applied to the terminal state
`completed` and the candidate transition back to `queued`. -/
theorem c3_terminal_absorbing_witness :
    isTerminal Status.completed = true ∧ ¬ JobStep Status.completed Status.queued :=
  ⟨rfl, c3_terminal_absorbing.1 Status.completed Status.queued rfl⟩

/-- Claim C4: over a job's whole snapshot trace the progress field is
monotonically non-decreasing, every `transcribing` snapshot carries
`progress = floor(currentChunkIndex / totalChunks * 100)`, and every
`completed` snapshot carries `progress = 100`. -/
theorem c4_progress_monotone (engine : Nat → Except String String)
    (cancel : Nat → Bool) (n : Nat) :
    List.Chain' (fun a b => a.progress ≤ b.progress) (runJob engine cancel n).2.1 ∧
    (∀ e ∈ (runJob engine cancel n).2.1, e.status = Status.transcribing →
      e.progress = e.currentChunkIndex * 100 / e.totalChunks) ∧
    (∀ e ∈ (runJob engine cancel n).2.1, e.status = Status.completed →
      e.progress = 100) := by
  obtain ⟨p1, p2, _⟩ := runJob_props engine cancel n
  exact ⟨p1, fun e he => (p2 e he).2, fun e he => (p2 e he).1⟩

theorem runLoop_failed (engine : Nat → Except String String) (cancel : Nat → Bool)
    (n k : Nat) (e : String) (txt : Nat → String)
    (hcan : ∀ j, j ≤ k → cancel j = false)
    (hok : ∀ j, j < k → engine j = Except.ok (txt j))
    (herr : engine k = Except.error e) :
    ∀ (m i : Nat) (job : Job), i ≤ k → k < i + m →
      (runLoop engine cancel n (List.range' i m) job).1.status = Status.failed ∧
      (runLoop engine cancel n (List.range' i m) job).1.lastError = some e ∧
      (runLoop engine cancel n (List.range' i m) job).1.currentChunkIndex = k ∧
      (runLoop engine cancel n (List.range' i m) job).1.accumulatedText =
        job.accumulatedText ++ concatTexts ((List.range' i (k - i)).map txt) ∧
      (runLoop engine cancel n (List.range' i m) job).2.2 =
        List.range' i (k + 1 - i) := by
  intro m
  induction m with
  | zero =>
    intro i job h1 h2
    omega
  | succ m ih =>
    intro i job h1 h2
    rw [List.range'_succ]
    rcases Nat.eq_or_lt_of_le h1 with heq | hlt
    · subst heq
      rw [runLoop_cons_error engine cancel n i (List.range' (i + 1) m) job e
        (hcan i (Nat.le_refl i)) herr]
      refine ⟨rfl, rfl, rfl, ?_, ?_⟩
      · simp [failedJob, Nat.sub_self, concatTexts]
      · have hone : i + 1 - i = 1 := by omega
        rw [hone, List.range'_one]
    · have hcf : cancel i = false := hcan i (Nat.le_of_lt hlt)
      have hofk : engine i = Except.ok (txt i) := hok i hlt
      rw [runLoop_cons_ok engine cancel n i (List.range' (i + 1) m) job (txt i) hcf hofk]
      obtain ⟨q1, q2, q3, q4, q5⟩ := ih (i + 1) (steppedJob n i (txt i) job) hlt (by omega)
      refine ⟨q1, q2, q3, ?_, ?_⟩
      · rw [q4]
        have hki : k - i = (k - (i + 1)) + 1 := by omega
        rw [hki, List.range'_succ, List.map_cons]
        simp only [concatTexts]
        simp [steppedJob, String.append_assoc]
      · rw [q5]
        have hki : k + 1 - i = (k + 1 - (i + 1)) + 1 := by omega
        rw [hki, List.range'_succ]

/-- Claim C5: when the engine call for chunk `k` of a job raises an
unrecoverable error after chunks 1..k-1 succeeded, the job ends `failed`
with `lastError` populated, `currentChunkIndex = k`, accumulated text
containing exactly the earlier chunks' contribution, and the engine is
invoked for no chunk beyond `k` (the invocation list is exactly
`[1..k]`). -/
theorem c5_engine_failure (n k : Nat) (engine : Nat → Except String String)
    (cancel : Nat → Bool) (txt : Nat → String) (e : String)
    (hk1 : 1 ≤ k) (hk2 : k ≤ n)
    (hcan : ∀ j, j ≤ k → cancel j = false)
    (hok : ∀ j, j < k → engine j = Except.ok (txt j))
    (herr : engine k = Except.error e) :
    (runJob engine cancel n).1.status = Status.failed ∧
    (runJob engine cancel n).1.lastError = some e ∧
    (runJob engine cancel n).1.currentChunkIndex = k ∧
    (runJob engine cancel n).1.accumulatedText =
      concatTexts ((List.range' 1 (k - 1)).map txt) ∧
    (runJob engine cancel n).2.2 = List.range' 1 k := by
  obtain ⟨a1, a2, a3, a4, a5⟩ :=
    runLoop_failed engine cancel n k e txt hcan hok herr n 1 (chunkingJob n)
      hk1 (by omega)
  refine ⟨a1, a2, a3, ?_, ?_⟩
  · simpa [chunkingJob, initJob] using a4
  · simpa using a5

/-- Claim C5 witness: the theorem applied at the spec's scenario D — five
planned chunks, chunk 3's engine call fails. -/
theorem c5_engine_failure_witness :
    1 ≤ 3 ∧ 3 ≤ 5 ∧
    ((runJob engineScenD noCancel 5).1.status = Status.failed ∧
     (runJob engineScenD noCancel 5).1.lastError = some "engine failure" ∧
     (runJob engineScenD noCancel 5).1.currentChunkIndex = 3 ∧
     (runJob engineScenD noCancel 5).1.accumulatedText =
       concatTexts ((List.range' 1 2).map chunkTextD) ∧
     (runJob engineScenD noCancel 5).2.2 = List.range' 1 3) ∧
    concatTexts ((List.range' 1 2).map chunkTextD) = "chunk1 chunk2 " := by
  refine ⟨by decide, by decide, ?_, by decide⟩
  exact c5_engine_failure 5 3 engineScenD noCancel chunkTextD "engine failure"
    (by decide) (by decide) (fun j _ => rfl)
    (fun j hj => by simp [engineScenD, Nat.ne_of_lt hj]) rfl

theorem runLoop_cancelled (engine : Nat → Except String String) (cancel : Nat → Bool)
    (n c : Nat) (txt : Nat → String)
    (hcan : ∀ j, j < c → cancel j = false)
    (hok : ∀ j, j < c → engine j = Except.ok (txt j))
    (hc : cancel c = true) :
    ∀ (m i : Nat) (job : Job), i ≤ c → c < i + m →
      (runLoop engine cancel n (List.range' i m) job).1.status = Status.cancelled ∧
      (runLoop engine cancel n (List.range' i m) job).1.currentChunkIndex =
        (if c = i then job.currentChunkIndex else c - 1) ∧
      (runLoop engine cancel n (List.range' i m) job).2.2 = List.range' i (c - i) := by
  intro m
  induction m with
  | zero =>
    intro i job h1 h2
    omega
  | succ m ih =>
    intro i job h1 h2
    rw [List.range'_succ]
    rcases Nat.eq_or_lt_of_le h1 with heq | hlt
    · subst heq
      rw [runLoop_cons_cancel engine cancel n i (List.range' (i + 1) m) job hc]
      refine ⟨rfl, ?_, ?_⟩
      · rw [if_pos rfl]
        rfl
      · simp [Nat.sub_self]
    · have hcf : cancel i = false := hcan i hlt
      have hofk : engine i = Except.ok (txt i) := hok i hlt
      rw [runLoop_cons_ok engine cancel n i (List.range' (i + 1) m) job (txt i) hcf hofk]
      obtain ⟨q1, q2, q3⟩ := ih (i + 1) (steppedJob n i (txt i) job) hlt (by omega)
      refine ⟨q1, ?_, ?_⟩
      · rw [q2, if_neg (by omega : ¬ c = i)]
        by_cases hci : c = i + 1
        · rw [if_pos hci]
          simp [steppedJob]
          omega
        · rw [if_neg hci]
      · rw [q3]
        have hki : c - i = (c - (i + 1)) + 1 := by omega
        rw [hki, List.range'_succ]

/-- Claim C6 counterexample: with a single-chunk job (`n = 1`, the job is
processing chunk `i = 1`, the last), a cancellation requested while that
chunk is processing is never observed — there is no later chunk boundary
checkpoint — so the job ends `completed`, not `cancelled`, contradicting
the claim's "results in a final status of cancelled … never completed"
for `i = n`. -/
theorem c6_cancellation_counterexample :
    (runJob engineOk (cancelDuringChunk 1) 1).1.status = Status.completed ∧
    (runJob engineOk (cancelDuringChunk 1) 1).1.status ≠ Status.cancelled := by
  constructor
  · decide
  · decide

/-- Claim C6 (amended): for a job of `n` chunks, requesting cancellation
while the job is processing chunk `i` with `i < n` — so that at least one
chunk-boundary checkpoint remains — results in a final status of
`cancelled` with `currentChunkIndex = i ≤ i + 1` (the in-flight chunk
completes before the flag is observed) and the job never reaches
`completed`; when the cancellation is requested during the final chunk
(`i = n`) no checkpoint remains and the runner completes the job
instead. -/
theorem c6_cancellation (n i : Nat) (engine : Nat → Except String String)
    (txt : Nat → String)
    (h1 : 1 ≤ i) (h2 : i < n)
    (hok : ∀ j, j ≤ i → engine j = Except.ok (txt j)) :
    (runJob engine (cancelDuringChunk i) n).1.status = Status.cancelled ∧
    (runJob engine (cancelDuringChunk i) n).1.currentChunkIndex = i ∧
    (runJob engine (cancelDuringChunk i) n).1.currentChunkIndex ≤ i + 1 ∧
    (runJob engine (cancelDuringChunk i) n).1.status ≠ Status.completed := by
  obtain ⟨a1, a2, a3⟩ :=
    runLoop_cancelled engine (cancelDuringChunk i) n (i + 1) txt
      (fun j hj => by
        have : ¬ i < j := by omega
        simp [cancelDuringChunk, this])
      (fun j hj => hok j (by omega))
      (by simp [cancelDuringChunk])
      n 1 (chunkingJob n) (by omega) (by omega)
  rw [if_neg (by omega : ¬ i + 1 = 1)] at a2
  have hcci : (runJob engine (cancelDuringChunk i) n).1.currentChunkIndex = i := by
    simpa using a2
  have hst : (runJob engine (cancelDuringChunk i) n).1.status = Status.cancelled := a1
  refine ⟨hst, hcci, ?_, ?_⟩
  · rw [hcci]
    omega
  · rw [hst]
    simp

/-- Claim C6 witness: the amended theorem applied to a five-chunk job
cancelled while chunk 2 is processing. -/
theorem c6_cancellation_witness :
    1 ≤ 2 ∧ 2 < 5 ∧
    ((runJob engineOk (cancelDuringChunk 2) 5).1.status = Status.cancelled ∧
     (runJob engineOk (cancelDuringChunk 2) 5).1.currentChunkIndex = 2 ∧
     (runJob engineOk (cancelDuringChunk 2) 5).1.currentChunkIndex ≤ 3 ∧
     (runJob engineOk (cancelDuringChunk 2) 5).1.status ≠ Status.completed) :=
  ⟨by decide, by decide,
    c6_cancellation 5 2 engineOk okText (by decide) (by decide) (fun j _ => rfl)⟩

end Whisper
